import Mathlib

set_option maxRecDepth 100000

/-!
Shallow embedding of the mkubootenv U-Boot environment codec
(`mkubootenv.c`, later revision with redundant-environment flags support)
and proofs about its encode/decode pipeline.

Bytes are modelled as natural numbers (0..255 in practice).  The memory-mapped
source and target files are modelled as `List Nat`; a read through a pointer
that lies a few bytes past the end of the mapped file is modelled as yielding
`0` (`List.getD _ _ 0`), matching the zero fill of the final page of a shared
file mapping, which is what the program's small out-of-bounds reads hit at
runtime.  (When the file size is within `CRC32_SIZE + flags_size` bytes of a
page-size multiple those overshooting reads leave the mapped page and the
process dies with SIGBUS instead; that page-geometry corner depends on the
platform's page size and is outside this byte-level model.)  The unbounded
overread of `crc32` on a `size_t`-underflowed length, by contrast, crashes
deterministically and is modelled as an explicit outcome of `decode`.
-/

namespace Mkubootenv

/-- Modelled from the spec: the checksum engine (`crc32.h` / `crc32.c`) is not among
the provided sources.  Per the spec it is the standard CRC-32 with reflected
polynomial 0xEDB88320 and the usual initial/final complement convention.
This is one bit step of the reflected polynomial division. -/
def crc32Step (c : Nat) : Nat :=
  if c % 2 == 1 then Nat.xor (c / 2) 0xEDB88320 else c / 2

/-- Modelled from the spec: CRC-32 processing of a single byte — xor the byte
into the low bits of the running remainder, then eight division steps. -/
def crc32Byte (c b : Nat) : Nat :=
  crc32Step^[8] (Nat.xor c (b % 256))

/-- Modelled from the spec: `checksum(seed, data)` — the standard CRC-32 over a
byte sequence, with pre- and post-complement. -/
def crc32 (seed : Nat) (data : List Nat) : Nat :=
  Nat.xor (data.foldl crc32Byte (Nat.xor (seed % 2 ^ 32) 0xFFFFFFFF)) 0xFFFFFFFF

/-- The stored 32-bit checksum field as its four image bytes.  The C program
writes the value through a `uint32_t *` in the platform's native byte order;
we model a little-endian platform. -/
def crcLE (c : Nat) : List Nat :=
  [c % 256, c / 256 % 256, c / 65536 % 256, c / 16777216 % 256]

/-- Reading the stored 32-bit checksum back from the first four image bytes
(`crc = (uint32_t *) s->ptr; *crc`), little-endian like `crcLE`. -/
def readLE32 (img : List Nat) : Nat :=
  img.getD 0 0 + 256 * img.getD 1 0 + 65536 * img.getD 2 0 +
    16777216 * img.getD 3 0

/-- Forward byte translation of `uboot_env_to_img`'s copy loop:
`*p = (*q == '\n') ? '\0' : *q`. -/
def envToBin (b : Nat) : Nat := if b == 10 then 0 else b

/-- Reverse byte translation of `uboot_img_to_env`'s copy loop:
`*p = (*q == '\0') ? '\n' : *q`. -/
def binToEnv (b : Nat) : Nat := if b == 0 then 10 else b

/-- Embedding of `uboot_env_to_img(s, t, flags, flags_size, do_crc)`.
The target buffer of size `tsize` is zero-initialized (it is a fresh
`O_TRUNC`-ed file extended by `lseek`+`write`, so every byte not explicitly
written reads back as zero).  The function writes a four byte CRC placeholder
of zeros, one flags byte when `flags_size > 0`, the source bytes with `'\n'`
translated to `'\0'`, leaves the zero padding up to `tsize` (its trailer loop
only re-writes the byte right after the data, which is already zero), and
finally, when `do_crc`, overwrites the first four bytes with
`crc32(0, t->ptr + CRC32_SIZE + flags_size, t->size - (CRC32_SIZE + flags_size))`.
`main` only ever passes `flags_size` 0 or 1, in which case the flags field
written here has exactly `flags_size` bytes. -/
def uboot_env_to_img (src : List Nat) (tsize : Nat) (flags : Nat)
    (flags_size : Nat) (do_crc : Bool) : List Nat :=
  let fb : List Nat := if 0 < flags_size then [flags] else []
  let dataPad : List Nat :=
    src.map envToBin ++ List.replicate (tsize - (4 + flags_size + src.length)) 0
  crcLE (if do_crc then crc32 0 dataPad else 0) ++ fb ++ dataPad

/-- The fatal error of the forward direction of `main`: the requested image
size is smaller than `min_img_size`; both sizes are reported. -/
inductive EncodeError where
  | sizeTooSmall (requested min : Nat) : EncodeError
deriving DecidableEq, Repr

/-- `flags_size` as computed by `main`: `-f` sets it to `FLAGS_SIZE` (1),
otherwise it stays 0. -/
def flagsSize (F : Option Nat) : Nat :=
  match F with
  | some _ => 1
  | none => 0

/-- `min_img_size = CRC32_SIZE + flags_size + s.size + TRAILER_SIZE` from the
forward branch of `main`. -/
def minImgSize (src : List Nat) (F : Option Nat) : Nat :=
  4 + flagsSize F + src.length + 2

/-- Embedding of the forward (encode) branch of `main`: `img_size = 0` means
no `-s` option was given (the CLI rejects an explicit size of 0), in which
case the minimum size is used; an explicit size smaller than `min_img_size`
is a fatal error and nothing is written; otherwise `uboot_env_to_img` fills
the image. -/
def encode (src : List Nat) (img_size : Nat) (F : Option Nat)
    (do_crc : Bool) : Except EncodeError (List Nat) :=
  if img_size == 0 then
    Except.ok (uboot_env_to_img src (minImgSize src F) (F.getD 0) (flagsSize F) do_crc)
  else if img_size < minImgSize src F then
    Except.error (EncodeError.sizeTooSmall img_size (minImgSize src F))
  else
    Except.ok (uboot_env_to_img src img_size (F.getD 0) (flagsSize F) do_crc)

/-- Embedding of the terminator scan of `main`'s reverse branch:
`for (p = start; (p < end - 1) && (!found_data_end); p++)` with
`end = s.ptr + CRC32_SIZE + flags_size + s.size`.  `r` is the number of
iterations left, `(end - 1) - p` at entry; the result is the final value of
`p` and the `found_data_end` flag.  Note that `end` is `CRC32_SIZE +
flags_size` bytes past the end of the mapped source file, so the scan can
read past the file; those reads are modelled by `getD`'s default 0. -/
def scanFrom (img : List Nat) (p : Nat) : Nat → Nat × Bool
  | 0 => (p, false)
  | r + 1 =>
    if img.getD p 0 == 0 && img.getD (p + 1) 0 == 0 then (p + 1, true)
    else scanFrom img (p + 1) r

/-- Embedding of the translation loop of `uboot_img_to_env`: copy `tsize`
bytes starting at source offset `CRC32_SIZE + flags_size`, translating every
`'\0'` to `'\n'`. -/
def uboot_img_to_env (img : List Nat) (flags_size tsize : Nat) : List Nat :=
  (List.range tsize).map fun i => binToEnv (img.getD (4 + flags_size + i) 0)

/-- Embedding of the CRC comparison of `uboot_img_to_env`: the stored word
versus `crc32(0, s->ptr + CRC32_SIZE + flags_size, s->size - CRC32_SIZE - flags_size)`.
This comparison is only reached for `img.length ≥ 4 + flags_size`, where the
C length `s->size - CRC32_SIZE - flags_size` does not underflow and equals the
length of `List.drop (4 + flags_size) img`; for a shorter image the length
underflows as `size_t` and the `crc32` call itself crashes the process, which
`decode` models as a separate outcome before this comparison is consulted. -/
def crcMismatch (img : List Nat) (flags_size : Nat) : Bool :=
  readLE32 img != crc32 0 (img.drop (4 + flags_size))

/-- Outcome of the reverse (decode) branch of `main`: the two advisory
warnings, whether the process crashed inside `uboot_img_to_env`'s CRC
recomputation, and the produced plaintext.  `output = none` with
`crcCrash = false` is the clean failure of `uboot_env_prepare_target`
(computed target size 0, so `lseek(fd, -1, SEEK_SET)` fails and `main` exits
with an error).  `output = none` with `crcCrash = true` is the crash: for an
image shorter than `CRC32_SIZE + flags_size` the `size_t` length passed to
`crc32` underflows to about `2 ^ 64`, the read runs far past the mapping and
the process dies before the translation loop, producing no plaintext (the
destination file was nevertheless already created, truncated and extended by
`uboot_env_prepare_target`). -/
structure DecodeResult where
  noTermWarn : Bool
  crcWarn : Bool
  crcCrash : Bool
  output : Option (List Nat)
deriving DecidableEq, Repr

/-- Embedding of the reverse branch of `main` followed by `uboot_img_to_env`:
scan for the first double `'\0'` from offset `CRC32_SIZE + flags_size` with
bound `end = s.ptr + CRC32_SIZE + flags_size + s.size`, warn when the flag
stays unset, set the target size to `p - (s.ptr + CRC32_SIZE + flags_size)`,
prepare the target (fails for size 0), then run `uboot_img_to_env`, which
first recomputes the CRC — crashing when the image is shorter than the
header, since the `size_t` length `s->size - CRC32_SIZE - flags_size`
underflows — and only then translates.  The no-terminator warning is printed
by `main` before any of this, so it is reported in every branch; the CRC
warning is emitted inside `uboot_img_to_env`, hence only when the target was
prepared and the CRC recomputation did not crash. -/
def decode (img : List Nat) (flags_size : Nat) : DecodeResult :=
  let res := scanFrom img (4 + flags_size) (4 + flags_size + img.length - 1 - (4 + flags_size))
  let tsize := res.1 - (4 + flags_size)
  if tsize == 0 then
    { noTermWarn := !res.2, crcWarn := false, crcCrash := false, output := none }
  else if img.length < 4 + flags_size then
    { noTermWarn := !res.2, crcWarn := false, crcCrash := true, output := none }
  else
    { noTermWarn := !res.2, crcWarn := crcMismatch img flags_size, crcCrash := false,
      output := some (uboot_img_to_env img flags_size tsize) }

/-! Supporting lemmas -/

/-- The scan condition at index `i`: two consecutive zero bytes. -/
def zeroPair (img : List Nat) (i : Nat) : Prop :=
  img.getD i 0 = 0 ∧ img.getD (i + 1) 0 = 0

instance (img : List Nat) (i : Nat) : Decidable (zeroPair img i) := by
  unfold zeroPair; infer_instance

theorem envToBin_eq_zero {b : Nat} : envToBin b = 0 ↔ b = 10 ∨ b = 0 := by
  unfold envToBin
  by_cases h : b = 10 <;> simp [h]

theorem binToEnv_envToBin {b : Nat} (hb : b ≠ 0) : binToEnv (envToBin b) = b := by
  unfold envToBin binToEnv
  by_cases h : b = 10 <;> simp [h, hb]

theorem scanFrom_found (img : List Nat) (k : Nat) :
    ∀ r start, start ≤ k → k < start + r → zeroPair img k →
      (∀ i, start ≤ i → i < k → ¬ zeroPair img i) →
      scanFrom img start r = (k + 1, true) := by
  intro r
  induction r with
  | zero => intro start h1 h2 _ _; omega
  | succ n ih =>
    intro start h1 h2 hk hbefore
    rcases Nat.eq_or_lt_of_le h1 with heq | hlt
    · subst heq
      have hc : (img.getD start 0 == 0 && img.getD (start + 1) 0 == 0) = true := by
        simp only [Bool.and_eq_true, beq_iff_eq]
        exact hk
      simp only [scanFrom]
      rw [hc]
      simp
    · have hc : (img.getD start 0 == 0 && img.getD (start + 1) 0 == 0) = false := by
        have := hbefore start (Nat.le_refl _) hlt
        simp only [zeroPair] at this
        simp only [Bool.and_eq_false_iff, beq_eq_false_iff_ne, ne_eq]
        tauto
      simp only [scanFrom]
      rw [hc]
      simp only [Bool.false_eq_true, if_false]
      exact ih (start + 1) hlt (by omega) hk
        (fun i hi1 hi2 => hbefore i (by omega) hi2)

theorem scanFrom_not_found (img : List Nat) :
    ∀ r start, (∀ i, start ≤ i → i < start + r → ¬ zeroPair img i) →
      scanFrom img start r = (start + r, false) := by
  intro r
  induction r with
  | zero => intro start _; simp [scanFrom]
  | succ n ih =>
    intro start hbefore
    have hc : (img.getD start 0 == 0 && img.getD (start + 1) 0 == 0) = false := by
      have := hbefore start (Nat.le_refl _) (by omega)
      simp only [zeroPair] at this
      simp only [Bool.and_eq_false_iff, beq_eq_false_iff_ne, ne_eq]
      tauto
    simp only [scanFrom]
    rw [hc]
    simp only [Bool.false_eq_true, if_false]
    rw [ih (start + 1) (fun i hi1 hi2 => hbefore i (by omega) (by omega))]
    congr 1
    omega

theorem scanFrom_fst_ge (img : List Nat) :
    ∀ r start, start ≤ (scanFrom img start r).1 := by
  intro r
  induction r with
  | zero => intro start; simp [scanFrom]
  | succ n ih =>
    intro start
    simp only [scanFrom]
    split
    · simp
    · exact Nat.le_trans (Nat.le_succ _) (ih (start + 1))

theorem scanFrom_fst_gt (img : List Nat) (r start : Nat) (hr : 1 ≤ r) :
    start + 1 ≤ (scanFrom img start r).1 := by
  cases r with
  | zero => omega
  | succ n =>
    simp only [scanFrom]
    split
    · simp
    · exact scanFrom_fst_ge img n (start + 1)

theorem crcLE_length (c : Nat) : (crcLE c).length = 4 := by
  simp [crcLE]

theorem fb_length (flags flags_size : Nat) (h : flags_size ≤ 1) :
    (if 0 < flags_size then [flags] else ([] : List Nat)).length = flags_size := by
  interval_cases flags_size <;> simp

theorem flagsSize_le_one (F : Option Nat) : flagsSize F ≤ 1 := by
  cases F <;> simp [flagsSize]

theorem getD_append_offset (l1 l2 : List Nat) (n j : Nat) (h : l1.length = n) :
    (l1 ++ l2).getD (n + j) 0 = l2.getD j 0 := by
  rw [List.getD_append_right _ _ _ _ (by omega)]
  congr 1
  omega

theorem uboot_env_to_img_eq (src : List Nat) (tsize flags flags_size : Nat)
    (dc : Bool) :
    uboot_env_to_img src tsize flags flags_size dc =
      (crcLE (if dc then
          crc32 0 (src.map envToBin ++
            List.replicate (tsize - (4 + flags_size + src.length)) 0) else 0) ++
        (if 0 < flags_size then [flags] else [])) ++
        (src.map envToBin ++
          List.replicate (tsize - (4 + flags_size + src.length)) 0) := by
  simp [uboot_env_to_img]

theorem uboot_env_to_img_length (src : List Nat) (tsize flags flags_size : Nat)
    (dc : Bool) (h : flags_size ≤ 1) (ht : 4 + flags_size + src.length ≤ tsize) :
    (uboot_env_to_img src tsize flags flags_size dc).length = tsize := by
  rw [uboot_env_to_img_eq]
  simp only [List.length_append, crcLE_length, fb_length _ _ h, List.length_map,
    List.length_replicate]
  omega

theorem uboot_env_to_img_getD_data (src : List Nat) (tsize flags flags_size : Nat)
    (dc : Bool) (h : flags_size ≤ 1) {j : Nat} (hj : j < src.length) :
    (uboot_env_to_img src tsize flags flags_size dc).getD (4 + flags_size + j) 0 =
      envToBin (src.getD j 0) := by
  rw [uboot_env_to_img_eq]
  rw [getD_append_offset _ _ _ _ (by simp [crcLE_length, fb_length _ _ h])]
  rw [List.getD_append _ _ _ _ (by simpa using hj)]
  rw [List.getD_eq_getElem _ _ (by simpa using hj), List.getElem_map,
    List.getD_eq_getElem _ _ hj]

theorem uboot_env_to_img_getD_pad (src : List Nat) (tsize flags flags_size : Nat)
    (dc : Bool) (h : flags_size ≤ 1) {i : Nat}
    (hi : 4 + flags_size + src.length ≤ i) :
    (uboot_env_to_img src tsize flags flags_size dc).getD i 0 = 0 := by
  rw [uboot_env_to_img_eq, ← List.append_assoc]
  rw [List.getD_append_right _ _ _ _
    (by simp [crcLE_length, fb_length _ _ h]; omega)]
  rw [List.getD_eq_getElem?_getD, List.getElem?_getD_replicate_default_eq]

theorem uboot_env_to_img_take4 (src : List Nat) (tsize flags flags_size : Nat)
    (dc : Bool) :
    (uboot_env_to_img src tsize flags flags_size dc).take 4 =
      crcLE (if dc then
        crc32 0 (src.map envToBin ++
          List.replicate (tsize - (4 + flags_size + src.length)) 0) else 0) := by
  rw [uboot_env_to_img_eq, List.append_assoc]
  exact List.take_left' (crcLE_length _)

theorem uboot_env_to_img_drop (src : List Nat) (tsize flags flags_size : Nat)
    (dc : Bool) (h : flags_size ≤ 1) :
    (uboot_env_to_img src tsize flags flags_size dc).drop (4 + flags_size) =
      src.map envToBin ++
        List.replicate (tsize - (4 + flags_size + src.length)) 0 := by
  rw [uboot_env_to_img_eq]
  exact List.drop_left' (by simp [crcLE_length, fb_length _ _ h])

theorem encode_ok_spec {src : List Nat} {n : Nat} {F : Option Nat} {dc : Bool}
    {img : List Nat} (h : encode src n F dc = Except.ok img) :
    minImgSize src F ≤ (if n = 0 then minImgSize src F else n) ∧
      img = uboot_env_to_img src (if n = 0 then minImgSize src F else n)
        (F.getD 0) (flagsSize F) dc := by
  unfold encode at h
  by_cases h0 : n = 0
  · simp only [h0, beq_self_eq_true, if_true] at h
    refine ⟨by rw [if_pos h0], ?_⟩
    rw [if_pos h0]
    exact ((Except.ok.injEq _ _).mp h).symm
  · have hb : (n == 0) = false := by simp [h0]
    rw [hb] at h
    simp only [Bool.false_eq_true, if_false] at h
    by_cases hlt : n < minImgSize src F
    · rw [if_pos hlt] at h
      exact absurd h (by simp)
    · rw [if_neg hlt] at h
      refine ⟨by rw [if_neg h0]; omega, ?_⟩
      rw [if_neg h0]
      exact ((Except.ok.injEq _ _).mp h).symm

theorem decode_of_scan {img : List Nat} {flags_size p : Nat} {found : Bool}
    (h : scanFrom img (4 + flags_size)
      (4 + flags_size + img.length - 1 - (4 + flags_size)) = (p, found))
    (hp : 4 + flags_size < p) (hlen : 4 + flags_size ≤ img.length) :
    decode img flags_size =
      { noTermWarn := !found, crcWarn := crcMismatch img flags_size,
        crcCrash := false,
        output := some (uboot_img_to_env img flags_size (p - (4 + flags_size))) } := by
  unfold decode
  rw [h]
  have hz : (p - (4 + flags_size) == 0) = false := by
    simp only [beq_eq_false_iff_ne, ne_eq]
    omega
  simp only [hz, Bool.false_eq_true, if_false]
  rw [if_neg (by omega)]

theorem getD_header_congr (pre1 pre2 rest : List Nat) (h1 : pre1.length = 4)
    (h2 : pre2.length = 4) {i : Nat} (hi : 4 ≤ i) :
    (pre1 ++ rest).getD i 0 = (pre2 ++ rest).getD i 0 := by
  rw [List.getD_append_right _ _ _ _ (by omega),
    List.getD_append_right _ _ _ _ (by omega), h1, h2]

theorem scanFrom_header_congr (pre1 pre2 rest : List Nat) (h1 : pre1.length = 4)
    (h2 : pre2.length = 4) :
    ∀ r p, 4 ≤ p → scanFrom (pre1 ++ rest) p r = scanFrom (pre2 ++ rest) p r := by
  intro r
  induction r with
  | zero => intro p _; simp [scanFrom]
  | succ n ih =>
    intro p hp
    simp only [scanFrom]
    rw [getD_header_congr pre1 pre2 rest h1 h2 hp,
      getD_header_congr pre1 pre2 rest h1 h2 (by omega : 4 ≤ p + 1)]
    split
    · rfl
    · exact ih (p + 1) (by omega)

theorem uboot_img_to_env_header_congr (pre1 pre2 rest : List Nat)
    (h1 : pre1.length = 4) (h2 : pre2.length = 4) (flags_size tsize : Nat) :
    uboot_img_to_env (pre1 ++ rest) flags_size tsize =
      uboot_img_to_env (pre2 ++ rest) flags_size tsize := by
  unfold uboot_img_to_env
  refine List.map_congr_left fun i _ => ?_
  rw [getD_header_congr pre1 pre2 rest h1 h2 (by omega)]

theorem decode_header_congr (pre1 pre2 rest : List Nat) (h1 : pre1.length = 4)
    (h2 : pre2.length = 4) (flags_size : Nat) :
    (decode (pre1 ++ rest) flags_size).output =
      (decode (pre2 ++ rest) flags_size).output ∧
    (decode (pre1 ++ rest) flags_size).noTermWarn =
      (decode (pre2 ++ rest) flags_size).noTermWarn := by
  simp only [decode]
  rw [show (pre1 ++ rest).length = 4 + rest.length by simp [h1],
    show (pre2 ++ rest).length = 4 + rest.length by simp [h2],
    scanFrom_header_congr pre1 pre2 rest h1 h2 _ _ (by omega),
    uboot_img_to_env_header_congr pre1 pre2 rest h1 h2]
  constructor
  · split
    · rfl
    · split <;> rfl
  · split
    · rfl
    · split <;> rfl

theorem getD_mem_of_lt {D : List Nat} {j : Nat} (hj : j < D.length) :
    D.getD j 0 ∈ D := by
  rw [List.getD_eq_getElem _ _ hj]
  exact List.getElem_mem _

/-- Core of the round-trip argument: decoding the image produced for a
nonempty newline-terminated plaintext with no NUL bytes and no two adjacent
newlines recovers the plaintext exactly. -/
theorem decode_uboot_env_to_img (D : List Nat) (F : Option Nat) (hne : D ≠ [])
    (hz : ∀ b ∈ D, b ≠ 0)
    (hlast : D.getD (D.length - 1) 0 = 10)
    (hadj : ∀ j, j + 1 < D.length → ¬(D.getD j 0 = 10 ∧ D.getD (j + 1) 0 = 10))
    (img : List Nat) (himg : encode D 0 F true = Except.ok img) :
    (decode img (flagsSize F)).output = some D := by
  obtain ⟨hmin, heq⟩ := encode_ok_spec himg
  rw [if_pos rfl] at heq
  have hfs1 : flagsSize F ≤ 1 := flagsSize_le_one F
  have hL : 1 ≤ D.length := List.length_pos.mpr hne
  have htmin : minImgSize D F = 4 + flagsSize F + D.length + 2 := rfl
  have hlen : img.length = 4 + flagsSize F + D.length + 2 := by
    rw [heq, uboot_env_to_img_length _ _ _ _ _ hfs1 (by rw [htmin]; omega)]
    exact htmin
  have hdata : ∀ j, j < D.length →
      img.getD (4 + flagsSize F + j) 0 = envToBin (D.getD j 0) := by
    intro j hj
    rw [heq]
    exact uboot_env_to_img_getD_data _ _ _ _ _ hfs1 hj
  have hpad : ∀ i, 4 + flagsSize F + D.length ≤ i → img.getD i 0 = 0 := by
    intro i hi
    rw [heq]
    exact uboot_env_to_img_getD_pad _ _ _ _ _ hfs1 hi
  have hfound : scanFrom img (4 + flagsSize F)
      (4 + flagsSize F + img.length - 1 - (4 + flagsSize F)) =
      (4 + flagsSize F + (D.length - 1) + 1, true) := by
    apply scanFrom_found
    · omega
    · omega
    · constructor
      · rw [hdata (D.length - 1) (by omega), hlast]
        rfl
      · rw [show 4 + flagsSize F + (D.length - 1) + 1 =
          4 + flagsSize F + D.length by omega]
        exact hpad _ (Nat.le_refl _)
    · intro i hi1 hi2 hpair
      obtain ⟨j, hj, rfl⟩ : ∃ j, j + 1 < D.length ∧ i = 4 + flagsSize F + j :=
        ⟨i - (4 + flagsSize F), by omega, by omega⟩
      have hp1 : img.getD (4 + flagsSize F + j) 0 = 0 := hpair.1
      have hp2 : img.getD (4 + flagsSize F + j + 1) 0 = 0 := hpair.2
      rw [hdata j (by omega)] at hp1
      rw [show 4 + flagsSize F + j + 1 = 4 + flagsSize F + (j + 1) from rfl,
        hdata (j + 1) hj] at hp2
      have h1 : D.getD j 0 = 10 := by
        rcases envToBin_eq_zero.mp hp1 with h | h
        · exact h
        · exact absurd h (hz _ (getD_mem_of_lt (by omega)))
      have h2 : D.getD (j + 1) 0 = 10 := by
        rcases envToBin_eq_zero.mp hp2 with h | h
        · exact h
        · exact absurd h (hz _ (getD_mem_of_lt hj))
      exact hadj j hj ⟨h1, h2⟩
  rw [decode_of_scan hfound (by omega) (by omega)]
  simp only [Option.some.injEq]
  rw [show 4 + flagsSize F + (D.length - 1) + 1 - (4 + flagsSize F) = D.length
    by omega]
  apply List.ext_getElem
  · simp [uboot_img_to_env]
  · intro i hi1 hi2
    have hiL : i < D.length := hi2
    simp only [uboot_img_to_env, List.getElem_map, List.getElem_range]
    rw [hdata i hiL, List.getD_eq_getElem _ _ hiL,
      binToEnv_envToBin (hz _ (List.getElem_mem _))]

/-! Claims -/

/-- C1 (counterexample): the plaintext "a=1\nb=2" contains no NUL byte and at
most one malformed entry (only the final entry is unterminated), yet decoding
its encoding (no flags, no explicit size, CRC on) yields "a=1\nb=2\n", not the
original buffer: the terminator scan only stops inside the padding, so one
padding byte is translated back into an extra trailing newline. -/
theorem C1_counterexample :
    (decode ((encode [97, 61, 49, 10, 98, 61, 50] 0 none true).toOption.getD [])
        (flagsSize none)).output = some [97, 61, 49, 10, 98, 61, 50, 10] ∧
      ([97, 61, 49, 10, 98, 61, 50, 10] : List Nat) ≠
        [97, 61, 49, 10, 98, 61, 50] := by
  decide

/-- C1 (amended): round-trip holds for every plaintext buffer that is nonempty,
contains no NUL byte, ends with a newline, and has no two adjacent newline
bytes (an empty entry), for every flags choice: decoding the image produced by
`encode(D, flags = F, size = none, crc = true)` with `flags_size = len(F)`
yields exactly `D`. -/
theorem C1_roundtrip_amended (D : List Nat) (F : Option Nat) (hne : D ≠ [])
    (hz : ∀ b ∈ D, b ≠ 0) (hlast : D.getD (D.length - 1) 0 = 10)
    (hadj : ∀ j, j + 1 < D.length →
      ¬(D.getD j 0 = 10 ∧ D.getD (j + 1) 0 = 10)) :
    ∀ img, encode D 0 F true = Except.ok img →
      (decode img (flagsSize F)).output = some D :=
  decode_uboot_env_to_img D F hne hz hlast hadj

/-- C1 (witness): the amended round-trip at the concrete plaintext "a=1\n"
with no flags. -/
theorem C1_roundtrip_amended_witness :
    ([97, 61, 49, 10] : List Nat) ≠ [] ∧
    (decode ((encode [97, 61, 49, 10] 0 none true).toOption.getD [])
      (flagsSize none)).output = some [97, 61, 49, 10] :=
  ⟨by decide,
    C1_roundtrip_amended [97, 61, 49, 10] none (by decide) (by decide) (by decide)
      (fun j hj => by
        have hj3 : j < 3 := by
          simp only [List.length_cons, List.length_nil] at hj
          omega
        interval_cases j <;> decide)
      _ (by rfl)⟩

/-- C2 (counterexample): the concrete input "baudrate=115200\nbootdelay=5\n" is
28 bytes, not 29, so the image produced with no explicit size, no flags and
checksum enabled has 4 + 0 + 28 + 2 = 34 bytes, not the 35 the claim states. -/
theorem C2_counterexample :
    ((encode [98, 97, 117, 100, 114, 97, 116, 101, 61, 49, 49, 53, 50, 48, 48,
        10, 98, 111, 111, 116, 100, 101, 108, 97, 121, 61, 53, 10]
        0 none true).toOption.getD []).length ≠ 35 := by
  decide

/-- C2 (amended): for input "baudrate=115200\nbootdelay=5\n" (28 bytes), with
no explicit size, no flags, and checksum enabled, encode produces exactly 34
bytes: bytes 4..31 are "baudrate=115200\0bootdelay=5\0", bytes 32..33 are
0x00 0x00, and bytes 0..3 hold the CRC-32 (seed 0) of bytes 4..33 in the
platform byte order (modelled little-endian). -/
theorem C2_concrete_scenario_amended :
    ((encode [98, 97, 117, 100, 114, 97, 116, 101, 61, 49, 49, 53, 50, 48, 48,
        10, 98, 111, 111, 116, 100, 101, 108, 97, 121, 61, 53, 10]
        0 none true).toOption.getD []).length = 34 ∧
    ((encode [98, 97, 117, 100, 114, 97, 116, 101, 61, 49, 49, 53, 50, 48, 48,
        10, 98, 111, 111, 116, 100, 101, 108, 97, 121, 61, 53, 10]
        0 none true).toOption.getD []).drop 4 =
      [98, 97, 117, 100, 114, 97, 116, 101, 61, 49, 49, 53, 50, 48, 48, 0,
        98, 111, 111, 116, 100, 101, 108, 97, 121, 61, 53, 0, 0, 0] ∧
    ((encode [98, 97, 117, 100, 114, 97, 116, 101, 61, 49, 49, 53, 50, 48, 48,
        10, 98, 111, 111, 116, 100, 101, 108, 97, 121, 61, 53, 10]
        0 none true).toOption.getD []).take 4 =
      crcLE (crc32 0
        [98, 97, 117, 100, 114, 97, 116, 101, 61, 49, 49, 53, 50, 48, 48, 0,
          98, 111, 111, 116, 100, 101, 108, 97, 121, 61, 53, 0, 0, 0]) := by
  refine ⟨by decide, by decide, by decide⟩

/-- C3: size enforcement of the forward branch of `main`: with a requested
size present (the CLI rejects 0, so a present size is positive), encode fails
with the size-too-small error reporting both the requested and the minimum
size exactly when the requested size is below
`min_img_size = 4 + flags_size + len(D) + 2`, and the error branch produces no
output; with the size absent the image has exactly the minimum size. -/
theorem C3_size_enforcement (D : List Nat) (F : Option Nat) (dc : Bool)
    (n : Nat) (hn : 0 < n) :
    (encode D n F dc =
        Except.error (EncodeError.sizeTooSmall n (minImgSize D F)) ↔
      n < minImgSize D F) ∧
    ∃ img, encode D 0 F dc = Except.ok img ∧ img.length = minImgSize D F := by
  have hb : (n == 0) = false := by
    simp only [beq_eq_false_iff_ne, ne_eq]
    omega
  have hm : minImgSize D F = 4 + flagsSize F + D.length + 2 := rfl
  constructor
  · constructor
    · intro h
      unfold encode at h
      rw [hb] at h
      simp only [Bool.false_eq_true, if_false] at h
      by_cases hlt : n < minImgSize D F
      · exact hlt
      · rw [if_neg hlt] at h
        exact absurd h (by simp)
    · intro hlt
      unfold encode
      rw [hb]
      simp only [Bool.false_eq_true, if_false]
      rw [if_pos hlt]
  · refine ⟨uboot_env_to_img D (minImgSize D F) (F.getD 0) (flagsSize F) dc,
      ?_, ?_⟩
    · unfold encode
      simp only [beq_self_eq_true, if_true]
    · exact uboot_env_to_img_length _ _ _ _ _ (flagsSize_le_one F) (by omega)

/-- C3 (witness): the size check at the concrete input "a" with no flags and a
requested size of 8, which is at least the minimum of 4 + 0 + 1 + 2 = 7, so
both sides of the proven equivalence are false at this instance and the
absent-size conjunct is exercised positively. -/
theorem C3_size_enforcement_witness :
    0 < 8 ∧
    ((encode [97] 8 none true =
        Except.error (EncodeError.sizeTooSmall 8 (minImgSize [97] none)) ↔
      8 < minImgSize [97] none) ∧
    ∃ img, encode [97] 0 none true = Except.ok img ∧
      img.length = minImgSize [97] none) :=
  ⟨by decide, C3_size_enforcement [97] none true 8 (by decide)⟩

/-- C4 (counterexample): the two byte image 'AB' with `flags_size = 0` is
shorter than the four byte header, yet decode does not fail with a
header-size validation before touching the destination: there is no such
check and no image-too-small error anywhere in the reverse branch.  The
terminator scan runs over the header region (the reads past the two mapped
bytes yield zero) and finds an immediate terminator, the destination file is
created, truncated and extended by `uboot_env_prepare_target`, and only then
does the process crash inside `uboot_img_to_env`'s CRC recomputation, whose
`size_t` length `s->size - CRC32_SIZE - flags_size` underflows. -/
theorem C4_counterexample :
    ([65, 66] : List Nat).length < 4 + 0 ∧
    (decode [65, 66] 0).crcCrash = true ∧
    (decode [65, 66] 0).output = none := by
  decide

/-- C4 (amended): decode never performs a header-size validation and has no
image-too-small error.  An image shorter than the header is not rejected
before destination effects: for every image of at least two bytes whose
length is below `4 + flags_size`, the terminator scan and the destination
preparation complete (the destination is created, truncated and extended),
and decode then crashes inside `uboot_img_to_env`'s CRC recomputation on the
`size_t`-underflowed length, producing no plaintext output.  (Images of at
most one byte instead fail cleanly in `uboot_env_prepare_target`, still with
no header-size validation involved.) -/
theorem C4_short_image_crc_crash (img : List Nat) (flags_size : Nat)
    (h : 2 ≤ img.length) (hshort : img.length < 4 + flags_size) :
    (decode img flags_size).crcCrash = true ∧
    (decode img flags_size).output = none := by
  simp only [decode]
  have hgt : 4 + flags_size + 1 ≤
      (scanFrom img (4 + flags_size)
        (4 + flags_size + img.length - 1 - (4 + flags_size))).1 :=
    scanFrom_fst_gt img _ _ (by omega)
  have hc : ((scanFrom img (4 + flags_size)
      (4 + flags_size + img.length - 1 - (4 + flags_size))).1 -
        (4 + flags_size) == 0) = false := by
    simp only [beq_eq_false_iff_ne, ne_eq]
    omega
  rw [hc]
  simp only [Bool.false_eq_true, if_false]
  rw [if_pos hshort]
  exact ⟨rfl, rfl⟩

/-- C4 (witness): the amended statement at the concrete two byte image with
`flags_size = 0`. -/
theorem C4_short_image_crc_crash_witness :
    2 ≤ ([65, 66] : List Nat).length ∧ ([65, 66] : List Nat).length < 4 + 0 ∧
    ((decode [65, 66] 0).crcCrash = true ∧ (decode [65, 66] 0).output = none) :=
  ⟨by decide, by decide, C4_short_image_crc_crash [65, 66] 0 (by decide) (by decide)⟩

/-- C5: terminator scan correctness: decoding an image with `flags_size = 0`
whose data section is the 7 bytes "a=1\0\0\0\0" (whatever the four header
bytes hold) yields exactly the 4 byte plaintext "a=1\n": the scan stops at
the first pair of consecutive zero bytes, the output length is the terminator
position measured from offset `4 + flags_size`, and later bytes are
discarded. -/
theorem C5_terminator_scan (h : List Nat) (hh : h.length = 4) :
    (decode (h ++ [97, 61, 49, 0, 0, 0, 0]) 0).output = some [97, 61, 49, 10] := by
  rw [(decode_header_congr h [0, 0, 0, 0] [97, 61, 49, 0, 0, 0, 0] hh
    (by decide) 0).1]
  decide

/-- C5 (witness): the terminator scan claim at the concrete all-zero header. -/
theorem C5_terminator_scan_witness :
    ([0, 0, 0, 0] : List Nat).length = 4 ∧
    (decode ([0, 0, 0, 0] ++ [97, 61, 49, 0, 0, 0, 0]) 0).output =
      some [97, 61, 49, 10] :=
  ⟨by decide, C5_terminator_scan [0, 0, 0, 0] (by decide)⟩

/-- C6 (counterexample): encoding "a" with a flags byte and checksum enabled
produces an image whose stored checksum is not the CRC-32 of bytes 4..end
(the region beginning at the flags byte); it is the CRC-32 of bytes 5..end.
The checksum does not cover the flags byte. -/
theorem C6_counterexample :
    readLE32 ((encode [97] 0 (some 1) true).toOption.getD []) ≠
      crc32 0 (((encode [97] 0 (some 1) true).toOption.getD []).drop 4) ∧
    readLE32 ((encode [97] 0 (some 1) true).toOption.getD []) =
      crc32 0 (((encode [97] 0 (some 1) true).toOption.getD []).drop (4 + 1)) := by
  decide

/-- C6 (amended): for every successful encode with checksum enabled, the
stored 32-bit checksum at offset 0 is the CRC-32 (seed 0) of the image bytes
from offset `4 + flags_size` through the end — the data and padding region.
It never covers the checksum field itself, and, when a flags byte is present,
it does not cover the flags byte either. -/
theorem C6_checksum_coverage_amended (D : List Nat) (n : Nat) (F : Option Nat)
    (img : List Nat) (h : encode D n F true = Except.ok img) :
    img.take 4 = crcLE (crc32 0 (img.drop (4 + flagsSize F))) := by
  obtain ⟨hmin, heq⟩ := encode_ok_spec h
  rw [heq, uboot_env_to_img_take4,
    uboot_env_to_img_drop _ _ _ _ _ (flagsSize_le_one F)]
  simp

/-- C6 (witness): the checksum coverage at the concrete input "a" with an
active flags byte. -/
theorem C6_checksum_coverage_amended_witness :
    encode [97] 0 (some 1) true =
      Except.ok ((encode [97] 0 (some 1) true).toOption.getD []) ∧
    ((encode [97] 0 (some 1) true).toOption.getD []).take 4 =
      crcLE (crc32 0
        (((encode [97] 0 (some 1) true).toOption.getD []).drop
          (4 + flagsSize (some 1)))) :=
  ⟨by rfl,
    C6_checksum_coverage_amended [97] 0 (some 1) _ (by rfl)⟩

/-- C7: a stored checksum that differs from the recomputed one is non-fatal
and does not affect the produced plaintext: the decode output (including
whether output is produced at all) is independent of the four checksum bytes,
and whenever output is produced the checksum comparison only drives the
advisory warning, which is set exactly when the stored word differs from
`crc32(0, image[4 + flags_size ..])`. -/
theorem C7_checksum_mismatch_nonfatal (c1 c2 rest : List Nat)
    (h1 : c1.length = 4) (h2 : c2.length = 4) (flags_size : Nat) :
    (decode (c1 ++ rest) flags_size).output =
      (decode (c2 ++ rest) flags_size).output ∧
    ((decode (c1 ++ rest) flags_size).output ≠ none →
      (decode (c1 ++ rest) flags_size).crcWarn =
        (readLE32 (c1 ++ rest) !=
          crc32 0 ((c1 ++ rest).drop (4 + flags_size)))) := by
  refine ⟨(decode_header_congr c1 c2 rest h1 h2 flags_size).1, ?_⟩
  intro hout
  simp only [decode] at hout ⊢
  split at hout
  · simp at hout
  · next hcond =>
    rw [if_neg hcond]
    split at hout
    · simp at hout
    · next hcond2 =>
      rw [if_neg hcond2]
      rfl

/-- C7 (witness): checksum independence at a concrete image: a zero header
versus a garbage header over the same data "a\0\0". -/
theorem C7_checksum_mismatch_nonfatal_witness :
    ([0, 0, 0, 0] : List Nat).length = 4 ∧ ([9, 9, 9, 9] : List Nat).length = 4 ∧
    ((decode ([0, 0, 0, 0] ++ [97, 0, 0]) 0).output =
      (decode ([9, 9, 9, 9] ++ [97, 0, 0]) 0).output ∧
    ((decode ([0, 0, 0, 0] ++ [97, 0, 0]) 0).output ≠ none →
      (decode ([0, 0, 0, 0] ++ [97, 0, 0]) 0).crcWarn =
        (readLE32 ([0, 0, 0, 0] ++ [97, 0, 0]) !=
          crc32 0 (([0, 0, 0, 0] ++ [97, 0, 0]).drop (4 + 0))))) :=
  ⟨by decide, by decide,
    C7_checksum_mismatch_nonfatal [0, 0, 0, 0] [9, 9, 9, 9] [97, 0, 0]
      (by decide) (by decide) 0⟩

/-- C8 (code evaluated at the failing input): the 7 byte image
`[1, 2, 3, 4, 'a', '=', '1']` with `flags_size = 0` contains no pair of
consecutive zero bytes at or after offset 4, so per the claim decode should
warn and output the translation of bytes 4..5 ("a="). Instead the scan bound
`end = s.ptr + CRC32_SIZE + flags_size + s.size` overshoots the mapped file
by `4 + flags_size` bytes; the reads past the file hit the zero fill of the
final page, a phantom terminator is found at offset 7, no warning is emitted,
and the output is "a=1\n" — four bytes, the last translated from a byte that
lies beyond the image. -/
theorem C8_scan_overruns_buffer :
    (decode [1, 2, 3, 4, 97, 61, 49] 0).noTermWarn = false ∧
    (decode [1, 2, 3, 4, 97, 61, 49] 0).output = some [97, 61, 49, 10] := by
  decide

/-- C9: padding zero-fill and terminator guarantee: for every successful
encode, every byte of the image from the end of the translated data
(offset `4 + flags_size + len(D)`) to the end of the image is zero — in
particular every byte strictly between those offsets — and the image contains
two consecutive zero bytes at the end of the data section, inside its
bounds. -/
theorem C9_padding_zero_fill (D : List Nat) (n : Nat) (F : Option Nat)
    (dc : Bool) (img : List Nat) (h : encode D n F dc = Except.ok img) :
    (∀ i, 4 + flagsSize F + D.length ≤ i → i < img.length →
      img.getD i 0 = 0) ∧
    4 + flagsSize F + D.length + 1 < img.length ∧
    img.getD (4 + flagsSize F + D.length) 0 = 0 ∧
    img.getD (4 + flagsSize F + D.length + 1) 0 = 0 := by
  obtain ⟨hmin, heq⟩ := encode_ok_spec h
  have hfs1 := flagsSize_le_one F
  have hm : minImgSize D F = 4 + flagsSize F + D.length + 2 := rfl
  have ht : 4 + flagsSize F + D.length ≤ if n = 0 then minImgSize D F else n :=
    Nat.le_trans (by omega) hmin
  have hlen : img.length = if n = 0 then minImgSize D F else n := by
    rw [heq]
    exact uboot_env_to_img_length _ _ _ _ _ hfs1 ht
  have hlen2 : minImgSize D F ≤ img.length := by
    rw [hlen]
    exact hmin
  refine ⟨fun i hi _ => by
      rw [heq]; exact uboot_env_to_img_getD_pad _ _ _ _ _ hfs1 hi,
    by omega, ?_, ?_⟩
  · rw [heq]
    exact uboot_env_to_img_getD_pad _ _ _ _ _ hfs1 (by omega)
  · rw [heq]
    exact uboot_env_to_img_getD_pad _ _ _ _ _ hfs1 (by omega)

/-- C9 (witness): the padding guarantee at the concrete input "a" encoded with
no flags into an explicitly requested 12 byte image. -/
theorem C9_padding_zero_fill_witness :
    encode [97] 12 none true =
      Except.ok ((encode [97] 12 none true).toOption.getD []) ∧
    ((∀ i, 4 + flagsSize none + ([97] : List Nat).length ≤ i →
        i < ((encode [97] 12 none true).toOption.getD []).length →
        ((encode [97] 12 none true).toOption.getD []).getD i 0 = 0) ∧
      4 + flagsSize none + ([97] : List Nat).length + 1 <
        ((encode [97] 12 none true).toOption.getD []).length ∧
      ((encode [97] 12 none true).toOption.getD []).getD
        (4 + flagsSize none + ([97] : List Nat).length) 0 = 0 ∧
      ((encode [97] 12 none true).toOption.getD []).getD
        (4 + flagsSize none + ([97] : List Nat).length + 1) 0 = 0) :=
  ⟨by rfl, C9_padding_zero_fill [97] 12 none true _ (by rfl)⟩

/-- C10: encoding the empty plaintext with no flags, no requested size, and
checksum enabled succeeds and produces exactly the 6 byte image whose bytes
4..5 are 0x00 0x00 and whose bytes 0..3 hold `crc32(0, [0x00, 0x00])` in the
platform byte order (modelled little-endian). -/
theorem C10_empty_input :
    encode [] 0 none true = Except.ok (crcLE (crc32 0 [0, 0]) ++ [0, 0]) ∧
    ((encode [] 0 none true).toOption.getD []).length = 6 ∧
    ((encode [] 0 none true).toOption.getD []).drop 4 = [0, 0] ∧
    ((encode [] 0 none true).toOption.getD []).take 4 =
      crcLE (crc32 0 [0, 0]) := by
  refine ⟨by rfl, by decide, by decide, by decide⟩

end Mkubootenv
